import Mathlib

/-!
Verification of the GIFT-to-PDF converter's parser (`gift_to_pdf.py`,
class `GiftParser`).  The parser is shallowly embedded over `List Char`
(the decoded document text) and `List Nat` (raw input bytes).  Python
floats produced by `float(...)` on the digit/dot/sign tokens the parser
extracts are modelled as exact decimals (`Dec`, evaluated in `ℚ`), which
agrees with CPython for the short decimal literals that occur here, and
`str(float)` rendering is modelled by `Dec.render`.  All definitions are
computable and structurally recursive (length-indexed fuel where the
source loops consume input non-uniformly), so concrete runs reduce by
`decide`.
-/

deriving instance DecidableEq for Except

namespace Gift

/-- Characters stripped by Python `str.strip()` (ASCII whitespace). -/
def pyIsSpace (c : Char) : Bool :=
  c = ' ' || c = '\t' || c = '\n' || c = '\r' || c = '\x0b' || c = '\x0c'

/-- Python `str.strip()`: drop leading and trailing whitespace. -/
def pyStrip (s : List Char) : List Char :=
  ((s.dropWhile pyIsSpace).reverse.dropWhile pyIsSpace).reverse

/-- Convenience: the character list of a string literal. -/
def chars (s : String) : List Char := s.toList

/-- Index of the first occurrence of `pat` in the list, if any
(Python `str.find` / the scan position of `re` literals). -/
def findSub (pat : List Char) : List Char → Option Nat
  | [] => if pat = [] then some 0 else none
  | c :: t => if pat.isPrefixOf (c :: t) then some 0 else (findSub pat (c :: t).tail).map (· + 1)

/-- Python `in` on strings: substring containment. -/
def hasSub (pat s : List Char) : Bool := (findSub pat s).isSome

/-- Cons a character onto the first segment of a segment list. -/
def consHead (c : Char) : List (List Char) → List (List Char)
  | [] => [[c]]
  | s :: ss => (c :: s) :: ss

/-- Python `str.split(sep)` for a one-character separator: every
occurrence splits, empty segments are kept. -/
def pySplit (sep : Char) : List Char → List (List Char)
  | [] => [[]]
  | c :: t => if c = sep then [] :: pySplit sep t else consHead c (pySplit sep t)

/-- Python `str.split(sep, 1)` (already guarded by containment in the
source): the text before and after the first occurrence of `pat`. -/
def pySplitOnce (pat s : List Char) : List Char × List Char :=
  match findSub pat s with
  | some i => (s.take i, s.drop (i + pat.length))
  | none => (s, [])

/-- Python `str.replace(pat, r)`: replace every non-overlapping
occurrence, scanning left to right.  Fuel equals the input length. -/
def replaceAllF (pat r : List Char) : Nat → List Char → List Char
  | _, [] => []
  | 0, s => s
  | f + 1, c :: t =>
    if pat ≠ [] ∧ pat.isPrefixOf (c :: t) then
      r ++ replaceAllF pat r f ((c :: t).drop pat.length)
    else
      c :: replaceAllF pat r f t

def replaceAll (pat r s : List Char) : List Char := replaceAllF pat r s.length s

/-- Python `str.upper()` restricted to ASCII (all comparisons in the
source are against ASCII letters). -/
def pyUpper (s : List Char) : List Char := s.map Char.toUpper

/-- Value of a digit string. -/
def digitsToNat (ds : List Char) : Nat :=
  ds.foldl (fun a c => a * 10 + (c.toNat - 48)) 0

/-- An exact decimal: Python `float(tok)` applied to a token drawn from
the character class `[0-9.+-]` (the only tokens the parser feeds to
`float`).  `ip`/`fp` are the digit strings before/after the dot. -/
structure Dec where
  neg : Bool
  ip : List Char
  fp : List Char
deriving DecidableEq, Repr

/-- Python `float()` acceptance on `[0-9.+-]` tokens: one optional
leading sign, then at least one digit and at most one dot, nothing else.
`none` models the `ValueError` that `float` raises otherwise. -/
def scanDec (s : List Char) : Option Dec :=
  let (ng, rest) :=
    match s with
    | '-' :: r => (true, r)
    | '+' :: r => (false, r)
    | r => (false, r)
  let ip := rest.takeWhile Char.isDigit
  match rest.drop ip.length with
  | [] => if ip = [] then none else some ⟨ng, ip, []⟩
  | '.' :: r2 =>
    let fp := r2.takeWhile Char.isDigit
    if r2.drop fp.length ≠ [] then none
    else if ip = [] ∧ fp = [] then none
    else some ⟨ng, ip, fp⟩
  | _ => none

/-- The rational value of the decimal (built with `mkRat` so that it
evaluates inside the kernel). -/
def Dec.toRat (d : Dec) : ℚ :=
  mkRat ((if d.neg then -1 else 1) * (digitsToNat (d.ip ++ d.fp) : Int)) (10 ^ d.fp.length)

/-- Python `str(float)` / f-string rendering of the decimal (shortest
form, always with a decimal point; exact for short literals). -/
def Dec.render (d : Dec) : List Char :=
  let ipn := d.ip.dropWhile (· = '0')
  let ipo := if ipn = [] then chars "0" else ipn
  let fpn := (d.fp.reverse.dropWhile (· = '0')).reverse
  let fpo := if fpn = [] then chars "0" else fpn
  (if d.neg then chars "-" else []) ++ ipo ++ chars "." ++ fpo

/-- `GiftParser._remove_comments`, first substitution:
`re.sub(r'//.*$', '', content, flags=re.MULTILINE)` — drop from each
`//` to the end of its line. -/
def stripLineF : Nat → List Char → List Char
  | _, [] => []
  | 0, s => s
  | f + 1, c :: t =>
    if c = '/' ∧ t.head? = some '/' then
      stripLineF f (t.dropWhile (fun d => !(d == '\n')))
    else
      c :: stripLineF f t

/-- `GiftParser._remove_comments`, second substitution:
`re.sub(r'/\*.*?\*/', '', content, flags=re.DOTALL)` — drop each
shortest `/* ... */` span; an unterminated `/*` is kept. -/
def stripBlockF : Nat → List Char → List Char
  | _, [] => []
  | 0, s => s
  | f + 1, c :: t =>
    if c = '/' ∧ t.head? = some '*' then
      match findSub (chars "*/") t.tail with
      | some i => stripBlockF f (t.tail.drop (i + 2))
      | none => c :: t
    else
      c :: stripBlockF f t

/-- `GiftParser._remove_comments`: line comments, then block comments. -/
def stripComments (s : List Char) : List Char :=
  stripBlockF (stripLineF s.length s).length (stripLineF s.length s)

/-- Index of the last newline of a whitespace run (the greedy `\s*` of
the block separator backtracking to its final `\n`). -/
def lastNL (run : List Char) : Option Nat :=
  (findSub [ '\n' ] run.reverse).map (fun i => run.length - 1 - i)

/-- `re.split(r'\n\s*\n', content)`: each separator is a newline, greedy
whitespace, and a final newline. -/
def blockSplitF : Nat → List Char → List (List Char)
  | _, [] => [[]]
  | 0, s => [s]
  | f + 1, c :: t =>
    if c = '\n' then
      match lastNL (t.takeWhile pyIsSpace) with
      | some k => [] :: blockSplitF f (t.drop (k + 1))
      | none => consHead '\n' (blockSplitF f t)
    else
      consHead c (blockSplitF f t)

def blockSplit (s : List Char) : List (List Char) := blockSplitF s.length s

/-- The `type` tag of a question record (`question['type']`). -/
inductive QType where
  | unknown
  | description
  | truefalse
  | numerical
  | matching
  | multichoice
  | shortanswer
deriving DecidableEq, Repr

/-- One entry of `question['answers']` — the source stores plain dicts
whose shape depends on the question type. -/
inductive Ans where
  | mc (text : List Char) (correct : Bool) (percentage : Option ℚ) (feedback : Option (List Char))
  | num (value : ℚ) (tolerance : ℚ) (text : List Char)
  | pair (left right : List Char)
  | sa (text : List Char) (correct : Bool)
deriving DecidableEq, Repr

/-- A parsed question record. `correct` is only ever set for
`truefalse`; `feedback` is initialized to `None` and never written by
the parser. -/
structure Question where
  qtype : QType
  text : List Char
  answers : List Ans
  category : List Char
  title : Option (List Char)
  feedback : Option (List Char)
  correct : Option Bool
deriving DecidableEq, Repr

/-- The single exception the parsing phase can raise beyond decoding:
`ValueError` from `float()` in `_parse_numerical`. -/
inductive PError where
  | valueError
deriving DecidableEq, Repr

/-- `self.current_category` initial value from `__init__`. -/
def defaultCategory : List Char := chars "Общие вопросы"

def htmlTok : List Char := chars "[html]"

def catMarker : List Char := chars "$CATEGORY:"

/-- `re.match(r'::(.*?)::', block)`: the title and the remainder after
the closing `::`.  Without DOTALL `.` cannot cross a newline, so the
closing `::` must occur before any `\n`; non-greedy takes the first. -/
def titleScan : List Char → Option (List Char × List Char)
  | ':' :: ':' :: rest => some ([], rest)
  | '\n' :: _ => none
  | [] => none
  | c :: rest => (titleScan rest).map (fun pr => (c :: pr.1, pr.2))

def titleSplit : List Char → Option (List Char × List Char)
  | ':' :: ':' :: rest => titleScan rest
  | _ => none

/-- The block after optional title removal (`block[title_match.end():].strip()`). -/
def afterTitle (block : List Char) : List Char :=
  match titleSplit block with
  | some pr => pyStrip pr.2
  | none => block

/-- The block after the `[html]` marker handling
(`block.replace('[html]', '').strip()` when present). -/
def qBody (block : List Char) : List Char :=
  if hasSub htmlTok (afterTitle block) then
    pyStrip (replaceAll htmlTok [] (afterTitle block))
  else
    afterTitle block

/-- The string `re.match(r'^(.*?)\{(.*)\}$', block, re.DOTALL)` is run
on: `$` also matches just before one trailing newline. -/
def braceCore (s : List Char) : List Char :=
  if s.getLast? = some '\n' then s.dropLast else s

/-- `re.match(r'^(.*?)\{(.*)\}$', block, re.DOTALL)`: the (stripped)
question text before the first `\x7b` and the (stripped) payload up to
the final `\x7d`, or `None` when the shape does not hold. -/
def braceSplit (s : List Char) : Option (List Char × List Char) :=
  if (braceCore s).getLast? = some '\x7d' ∧ hasSub [ '\x7b' ] (braceCore s) then
    some (pyStrip ((braceCore s).takeWhile (fun c => !(c == '\x7b'))),
          pyStrip (((braceCore s).drop
            (((braceCore s).takeWhile (fun c => !(c == '\x7b'))).length + 1)).dropLast))
  else
    none

/-- `re.match(r'^(\d+(?:\.\d+)?)%$', t)` of `_parse_answer_with_feedback`,
returning the percentage value. -/
def percTok (s : List Char) : Option ℚ :=
  let ds := s.takeWhile Char.isDigit
  if ds = [] then none
  else
    match s.drop ds.length with
    | ['%'] => some (mkRat (digitsToNat ds : Int) 1)
    | '.' :: r =>
      let fs := r.takeWhile Char.isDigit
      if fs = [] then none
      else
        match r.drop fs.length with
        | ['%'] => some (mkRat (digitsToNat (ds ++ fs) : Int) (10 ^ fs.length))
        | _ => none
    | _ => none

/-- `GiftParser._parse_answer_with_feedback`: split on `#`; a leading
percentage segment sets `percentage`, everything else becomes
`feedback`. -/
def parseAWF (text : List Char) (isCorrect : Bool) : Ans :=
  match pySplit '#' text with
  | p0 :: p1 :: rest =>
    match percTok (pyStrip p1) with
    | some pct =>
      .mc (pyStrip p0) isCorrect (some pct)
        (if rest ≠ [] then some (pyStrip (List.intercalate [ '#' ] rest)) else none)
    | none =>
      .mc (pyStrip p0) isCorrect none (some (pyStrip (List.intercalate [ '#' ] (p1 :: rest))))
  | _ => .mc text isCorrect none none

def isMarkerChar (c : Char) : Bool := c = '=' || c = '~' || c = '%'

/-- `re.split(r'([=~%])', s)`: segments interleaved with the one-character
separators (which are kept). -/
def splitMarkers : List Char → List (List Char)
  | [] => [[]]
  | c :: t =>
    if isMarkerChar c then [] :: [c] :: splitMarkers t else consHead c (splitMarkers t)

/-- The single-line loop of `_parse_multichoice`: accumulate text after
each marker, finalizing on the next marker and at the end. -/
def mcGo : List (List Char) → Option Char → List Char → List Ans
  | [], m, t =>
    if m.isSome ∧ t ≠ [] then
      [parseAWF (pyStrip t) (m = some '=' || m = some '%')]
    else []
  | part :: ps, m, t =>
    match part with
    | [c] =>
      if isMarkerChar c then
        (if m.isSome ∧ t ≠ [] then
          [parseAWF (pyStrip t) (m = some '=' || m = some '%')]
         else []) ++ mcGo ps (some c) []
      else
        mcGo ps m (t ++ part)
    | _ => mcGo ps m (t ++ part)

/-- One line of the multi-line branch of `_parse_multichoice`. -/
def mcLine (l : List Char) : Option Ans :=
  match pyStrip l with
  | [] => none
  | c :: t =>
    if c = '=' then some (parseAWF (pyStrip t) true)
    else if c = '~' then some (parseAWF (pyStrip t) false)
    else if c = '%' then some (parseAWF (pyStrip t) true)
    else none

/-- `GiftParser._parse_multichoice`. -/
def parseMultichoice (p : List Char) : List Ans :=
  if hasSub [ '\n' ] p then
    (pySplit '\n' p).filterMap mcLine
  else
    mcGo (splitMarkers p) none []

/-- One line of `GiftParser._parse_matching`: only lines starting with
`=` and containing `->` contribute a pair. -/
def matchLine (l : List Char) : Option Ans :=
  match pyStrip l with
  | '=' :: t =>
    let l2 := pyStrip t
    if hasSub (chars "->") l2 then
      some (.pair (pyStrip (pySplitOnce (chars "->") l2).1)
                  (pyStrip (pySplitOnce (chars "->") l2).2))
    else none
  | _ => none

/-- `GiftParser._parse_matching`. -/
def parseMatching (p : List Char) : List Ans :=
  (pySplit '\n' p).filterMap matchLine

/-- The shortanswer default branch of `_parse_question`: segments after
the first `=`, stripped, empties discarded, all correct. -/
def parseShortanswer (p : List Char) : List Ans :=
  ((pySplit '=' p).drop 1).filterMap
    (fun part => if pyStrip part = [] then none else some (.sa (pyStrip part) true))

def isValChar (c : Char) : Bool := c.isDigit || c = '.' || c = '+' || c = '-'

def isTolChar (c : Char) : Bool := c.isDigit || c = '.'

/-- `re.findall(r'#\s*([\d\.\-\+]+)(?::([\d\.]+))?', p)`: scan for `#`,
skip whitespace, take a value token, then an optional `:` tolerance. -/
def numFindallF : Nat → List Char → List (List Char × Option (List Char))
  | _, [] => []
  | 0, _ => []
  | f + 1, c :: t =>
    if c = '#' then
      let ws := t.dropWhile pyIsSpace
      let tok := ws.takeWhile isValChar
      if tok = [] then numFindallF f t
      else
        match ws.drop tok.length with
        | ':' :: r2 =>
          let tol := r2.takeWhile isTolChar
          if tol = [] then (tok, none) :: numFindallF f (ws.drop tok.length)
          else (tok, some tol) :: numFindallF f (r2.drop tol.length)
        | after => (tok, none) :: numFindallF f after
    else
      numFindallF f t

def numFindall (p : List Char) : List (List Char × Option (List Char)) :=
  numFindallF p.length p

/-- One loop iteration of `_parse_numerical`: `float()` failures raise. -/
def numAnswer (tok : List Char) (tolOpt : Option (List Char)) : Except PError Ans :=
  match scanDec tok with
  | none => .error .valueError
  | some d =>
    match tolOpt with
    | none => .ok (.num d.toRat 0 d.render)
    | some t =>
      match scanDec t with
      | none => .error .valueError
      | some dt =>
        .ok (.num d.toRat dt.toRat
          (d.render ++ (if dt.toRat > 0 then chars " ± " ++ dt.render else [])))

def collectNum : List (List Char × Option (List Char)) → Except PError (List Ans)
  | [] => .ok []
  | pr :: rest =>
    match numAnswer pr.1 pr.2 with
    | .error e => .error e
    | .ok a =>
      match collectNum rest with
      | .error e => .error e
      | .ok as => .ok (a :: as)

/-- `GiftParser._parse_numerical`. -/
def parseNumerical (p : List Char) : Except PError (List Ans) :=
  collectNum (numFindall p)

def tfForms : List (List Char) := [chars "T", chars "F", chars "TRUE", chars "FALSE"]

def tfTrueForms : List (List Char) := [chars "T", chars "TRUE"]

/-- `re.match(r'^#\s*[\d\.\-\+]+', p)` as a Boolean. -/
def matchesNumerical : List Char → Bool
  | [] => false
  | c :: t =>
    c == '#' &&
      (match (t.dropWhile pyIsSpace).head? with
       | some d => isValChar d
       | none => false)

def startsWithMarker (p : List Char) : Bool :=
  (chars "=").isPrefixOf p || (chars "~").isPrefixOf p || (chars "%").isPrefixOf p

/-- The outcome of the `elif` classification chain of `_parse_question`
over the answers payload. -/
structure ClassifyResult where
  qtype : QType
  answers : List Ans
  correct : Option Bool
deriving DecidableEq, Repr

/-- The ordered classification chain of `_parse_question` (lines 146-168):
truefalse, numerical, matching, multichoice, then shortanswer. -/
def classifyPayload (p : List Char) : Except PError ClassifyResult :=
  if tfForms.contains p then
    .ok ⟨.truefalse, [], some (tfTrueForms.contains (pyUpper p))⟩
  else if matchesNumerical p then
    match parseNumerical p with
    | .error e => .error e
    | .ok as => .ok ⟨.numerical, as, none⟩
  else if hasSub (chars "->") p then
    .ok ⟨.matching, parseMatching p, none⟩
  else if hasSub [ '\n' ] p || startsWithMarker p then
    .ok ⟨.multichoice, parseMultichoice p, none⟩
  else
    .ok ⟨.shortanswer, parseShortanswer p, none⟩

/-- `GiftParser._parse_question` on one (already stripped) block:
`.ok none` is the silent skip (`return None`). -/
def parseQuestion (block cat : List Char) : Except PError (Option Question) :=
  if hasSub [ '\x7b' ] (qBody block) then
    match braceSplit (qBody block) with
    | none => .ok none
    | some (txt, payload) =>
      match classifyPayload payload with
      | .error e => .error e
      | .ok r =>
        .ok (some ⟨r.qtype, txt, r.answers, cat,
          (titleSplit block).map (fun pr => pyStrip pr.1), none, r.correct⟩)
  else
    .ok (some ⟨.description, pyStrip (qBody block), [], cat,
      (titleSplit block).map (fun pr => pyStrip pr.1), none, none⟩)

/-- The block loop of `GiftParser.parse`, threading the current
category; returns the questions in emission order and the final
category. -/
def parseBlocks : List (List Char) → List Char → Except PError (List Question × List Char)
  | [], cat => .ok ([], cat)
  | b :: bs, cat =>
    if pyStrip b = [] then parseBlocks bs cat
    else if catMarker.isPrefixOf (pyStrip b) then
      parseBlocks bs (pyStrip (replaceAll catMarker [] (pyStrip b)))
    else if [ '$' ].isPrefixOf (pyStrip b) then parseBlocks bs cat
    else
      match parseQuestion (pyStrip b) cat with
      | .error e => .error e
      | .ok none => parseBlocks bs cat
      | .ok (some q) =>
        match parseBlocks bs cat with
        | .error e => .error e
        | .ok (qs, c2) => .ok (q :: qs, c2)

/-- `GiftParser.parse` after decoding: strip comments, split into
blocks, and run the block loop from the initial category. -/
def parseGift (content : List Char) : Except PError (List Question) :=
  match parseBlocks (blockSplit (stripComments content)) defaultCategory with
  | .error e => .error e
  | .ok (qs, _) => .ok qs

/-! ### The encoding resolver of `GiftParser.parse` (lines 54-66)

Decoders are modelled as functions from the raw bytes to the decoded
code points, `none` standing for `UnicodeDecodeError`.  The code-point
tables reproduce Python's codecs: strict UTF-8, UTF-8 with an optional
BOM, the cp1251 table (byte `0x98` is unassigned and rejects;
`windows-1251` is an alias of the same codec), and latin-1, which maps
every byte to the code point of the same value and never rejects. -/

/-- Is `b` a UTF-8 continuation byte? -/
def utf8Cont (b : Nat) : Bool := 0x80 ≤ b && b ≤ 0xBF

/-- Strict UTF-8 decoding (fuel = number of bytes). -/
def utf8DecodeF : Nat → List Nat → Option (List Nat)
  | _, [] => some []
  | 0, _ => none
  | f + 1, b :: t =>
    if b ≤ 0x7F then (utf8DecodeF f t).map (b :: ·)
    else if 0xC2 ≤ b && b ≤ 0xDF then
      match t with
      | b2 :: r =>
        if utf8Cont b2 then (utf8DecodeF f r).map (((b - 0xC0) * 64 + (b2 - 0x80)) :: ·)
        else none
      | [] => none
    else if 0xE0 ≤ b && b ≤ 0xEF then
      match t with
      | b2 :: b3 :: r =>
        if (if b = 0xE0 then 0xA0 ≤ b2 && b2 ≤ 0xBF
            else if b = 0xED then 0x80 ≤ b2 && b2 ≤ 0x9F
            else utf8Cont b2) && utf8Cont b3 then
          (utf8DecodeF f r).map (((b - 0xE0) * 4096 + (b2 - 0x80) * 64 + (b3 - 0x80)) :: ·)
        else none
      | _ => none
    else if 0xF0 ≤ b && b ≤ 0xF4 then
      match t with
      | b2 :: b3 :: b4 :: r =>
        if (if b = 0xF0 then 0x90 ≤ b2 && b2 ≤ 0xBF
            else if b = 0xF4 then 0x80 ≤ b2 && b2 ≤ 0x8F
            else utf8Cont b2) && utf8Cont b3 && utf8Cont b4 then
          (utf8DecodeF f r).map
            (((b - 0xF0) * 262144 + (b2 - 0x80) * 4096 + (b3 - 0x80) * 64 + (b4 - 0x80)) :: ·)
        else none
      | _ => none
    else none

def utf8Decode (bs : List Nat) : Option (List Nat) := utf8DecodeF bs.length bs

/-- Python codec `utf-8-sig`: strip one optional BOM, then UTF-8. -/
def utf8sigDecode (bs : List Nat) : Option (List Nat) :=
  if [0xEF, 0xBB, 0xBF].isPrefixOf bs then utf8Decode (bs.drop 3) else utf8Decode bs

/-- Code points of cp1251 bytes `0x80`-`0xBF` (`0x98`, index 24, is
unassigned; the `none` there is the rejection). -/
def cp1251High : List (Option Nat) :=
  [some 0x402, some 0x403, some 0x201A, some 0x453, some 0x201E, some 0x2026,
   some 0x2020, some 0x2021, some 0x20AC, some 0x2030, some 0x409, some 0x2039,
   some 0x40A, some 0x40C, some 0x40B, some 0x40F, some 0x452, some 0x2018,
   some 0x2019, some 0x201C, some 0x201D, some 0x2022, some 0x2013, some 0x2014,
   none, some 0x2122, some 0x459, some 0x203A, some 0x45A, some 0x45C,
   some 0x45B, some 0x45F, some 0xA0, some 0x40E, some 0x45E, some 0x408,
   some 0xA4, some 0x490, some 0xA6, some 0xA7, some 0x401, some 0xA9,
   some 0x404, some 0xAB, some 0xAC, some 0xAD, some 0xAE, some 0x407,
   some 0xB0, some 0xB1, some 0x406, some 0x456, some 0x491, some 0xB5,
   some 0xB6, some 0xB7, some 0x451, some 0x2116, some 0x454, some 0xBB,
   some 0x458, some 0x405, some 0x455, some 0x457]

def cp1251Char (b : Nat) : Option Nat :=
  if b < 0x80 then some b
  else if b ≤ 0xBF then (cp1251High.getD (b - 0x80) none)
  else if b ≤ 0xFF then some (0x410 + (b - 0xC0))
  else none

def cp1251Decode : List Nat → Option (List Nat)
  | [] => some []
  | b :: t =>
    match cp1251Char b with
    | some c => (cp1251Decode t).map (c :: ·)
    | none => none

/-- Python codec `latin-1`: every byte maps to the same code point;
decoding never fails. -/
def latin1Decode (bs : List Nat) : Option (List Nat) := some bs

/-- The candidate list `encodings = ['utf-8', 'utf-8-sig', 'cp1251',
'windows-1251', 'latin-1']` paired with the codecs Python resolves the
names to (`windows-1251` is an alias of `cp1251`). -/
def codecs : List (String × (List Nat → Option (List Nat))) :=
  [("utf-8", utf8Decode), ("utf-8-sig", utf8sigDecode), ("cp1251", cp1251Decode),
   ("windows-1251", cp1251Decode), ("latin-1", latin1Decode)]

/-- The `for encoding in encodings: try ... break` loop: the first
successful decoding, if any. -/
def decodeFirst : List (String × (List Nat → Option (List Nat))) → List Nat → Option (List Nat)
  | [], _ => none
  | c :: cs, bs =>
    match c.2 bs with
    | some t => some t
    | none => decodeFirst cs bs

/-- The decoding phase of `GiftParser.parse`: `content is None` raises
`ValueError` carrying the attempted encoding list. -/
def decodeBytes (bs : List Nat) : Except (List String) (List Nat) :=
  match decodeFirst codecs bs with
  | some t => .ok t
  | none => .error (codecs.map Prod.fst)

/-- Errors of the whole `parse` call on raw bytes. -/
inductive GiftError where
  | decodeError (attempted : List String)
  | valueError
deriving DecidableEq, Repr

/-- `GiftParser.parse` from raw file bytes: decode, then parse. -/
def parseGiftBytes (bs : List Nat) : Except GiftError (List Question) :=
  match decodeBytes bs with
  | .error names => .error (.decodeError names)
  | .ok cps =>
    match parseGift (cps.map Char.ofNat) with
    | .error _ => .error .valueError
    | .ok qs => .ok qs

/-! ### Helper lemmas -/

set_option maxRecDepth 100000

theorem head_dropWhile_false (p : Char → Bool) :
    ∀ (l : List Char) (a : Char), (l.dropWhile p).head? = some a → p a = false := by
  intro l
  induction l with
  | nil => intro a h; simp [List.dropWhile] at h
  | cons c t ih =>
    intro a h
    by_cases hc : p c
    · rw [List.dropWhile_cons_of_pos hc] at h
      exact ih a h
    · rw [List.dropWhile_cons_of_neg hc] at h
      simp at h
      rw [← h]
      exact Bool.eq_false_iff.mpr hc

theorem pyStrip_getLast_not_space (y : List Char) (c : Char)
    (h : (pyStrip y).getLast? = some c) : pyIsSpace c = false := by
  unfold pyStrip at h
  rw [List.getLast?_reverse] at h
  exact head_dropWhile_false pyIsSpace _ c h

theorem qBody_is_stripped (b : List Char) : ∃ y, qBody (pyStrip b) = pyStrip y := by
  unfold qBody afterTitle
  cases ht : titleSplit (pyStrip b) with
  | some pr =>
    by_cases hh : hasSub htmlTok (pyStrip pr.2) = true
    · exact ⟨_, by rw [if_pos hh]⟩
    · refine ⟨pr.2, ?_⟩
      rw [if_neg ?_]
      simpa using hh
  | none =>
    by_cases hh : hasSub htmlTok (pyStrip b) = true
    · exact ⟨_, by rw [if_pos hh]⟩
    · refine ⟨b, ?_⟩
      rw [if_neg ?_]
      simpa using hh

theorem isPrefixOf_cons_head (c : Char) (pat l : List Char)
    (h : (c :: pat).isPrefixOf l = true) : l.head? = some c := by
  cases l with
  | nil => simp [List.isPrefixOf] at h
  | cons d t =>
    simp only [List.isPrefixOf, Bool.and_eq_true, beq_iff_eq] at h
    rw [h.1]
    rfl

theorem parseQuestion_category (b cat : List Char) (q : Question)
    (h : parseQuestion b cat = .ok (some q)) : q.category = cat := by
  unfold parseQuestion at h
  split at h
  · split at h
    · simp at h
    · split at h
      · simp at h
      · simp only [Except.ok.injEq, Option.some.injEq] at h
        subst h
        rfl
  · simp only [Except.ok.injEq, Option.some.injEq] at h
    subst h
    rfl

theorem classify_qtype (p : List Char) (r : ClassifyResult)
    (h : classifyPayload p = .ok r) :
    r.qtype = .truefalse ∨ r.qtype = .numerical ∨ r.qtype = .matching ∨
      r.qtype = .multichoice ∨ r.qtype = .shortanswer := by
  unfold classifyPayload at h
  split at h
  · simp only [Except.ok.injEq] at h
    subst h
    exact Or.inl rfl
  · split at h
    · split at h
      · simp at h
      · simp only [Except.ok.injEq] at h
        subst h
        exact Or.inr (Or.inl rfl)
    · split at h
      · simp only [Except.ok.injEq] at h
        subst h
        exact Or.inr (Or.inr (Or.inl rfl))
      · split at h
        · simp only [Except.ok.injEq] at h
          subst h
          exact Or.inr (Or.inr (Or.inr (Or.inl rfl)))
        · simp only [Except.ok.injEq] at h
          subst h
          exact Or.inr (Or.inr (Or.inr (Or.inr rfl)))

theorem parseQuestion_qtype (b cat : List Char) (q : Question)
    (h : parseQuestion b cat = .ok (some q)) :
    q.qtype = .description ∨ q.qtype = .truefalse ∨ q.qtype = .numerical ∨
      q.qtype = .matching ∨ q.qtype = .multichoice ∨ q.qtype = .shortanswer := by
  unfold parseQuestion at h
  split at h
  · split at h
    · simp at h
    · rename_i r hr
      split at h
      · simp at h
      · rename_i r2 hr2
        simp only [Except.ok.injEq, Option.some.injEq] at h
        subst h
        exact Or.inr (classify_qtype _ _ hr2)
  · simp only [Except.ok.injEq, Option.some.injEq] at h
    subst h
    exact Or.inl rfl

theorem parseBlocks_qtype : ∀ (bs : List (List Char)) (cat : List Char)
    (qs : List Question) (c2 : List Char),
    parseBlocks bs cat = .ok (qs, c2) → ∀ q ∈ qs,
    q.qtype = .description ∨ q.qtype = .truefalse ∨ q.qtype = .numerical ∨
      q.qtype = .matching ∨ q.qtype = .multichoice ∨ q.qtype = .shortanswer := by
  intro bs
  induction bs with
  | nil =>
    intro cat qs c2 h q hq
    unfold parseBlocks at h
    simp only [Except.ok.injEq, Prod.mk.injEq] at h
    rw [← h.1] at hq
    simp at hq
  | cons b t ih =>
    intro cat qs c2 h q hq
    unfold parseBlocks at h
    split at h
    · exact ih cat qs c2 h q hq
    · split at h
      · exact ih _ qs c2 h q hq
      · split at h
        · exact ih cat qs c2 h q hq
        · split at h
          · simp at h
          · exact ih cat qs c2 h q hq
          · rename_i q0 hq0
            split at h
            · simp at h
            · rename_i qs1 c1 hpr
              simp only [Except.ok.injEq, Prod.mk.injEq] at h
              rw [← h.1] at hq
              rcases List.mem_cons.mp hq with rfl | hmem
              · exact parseQuestion_qtype _ _ _ hq0
              · exact ih cat qs1 c1 hpr q hmem

theorem parseBlocks_noCat : ∀ (bs : List (List Char)) (cat : List Char),
    (∀ b ∈ bs, catMarker.isPrefixOf (pyStrip b) = false) →
    ∀ qs c2, parseBlocks bs cat = .ok (qs, c2) →
    c2 = cat ∧ ∀ q ∈ qs, q.category = cat := by
  intro bs
  induction bs with
  | nil =>
    intro cat hnd qs c2 h
    unfold parseBlocks at h
    simp only [Except.ok.injEq, Prod.mk.injEq] at h
    refine ⟨h.2.symm, ?_⟩
    rw [← h.1]
    simp
  | cons b t ih =>
    intro cat hnd qs c2 h
    have hnd1 : catMarker.isPrefixOf (pyStrip b) = false := hnd b (by simp)
    have hndt : ∀ x ∈ t, catMarker.isPrefixOf (pyStrip x) = false :=
      fun x hx => hnd x (by simp [hx])
    unfold parseBlocks at h
    split at h
    · exact ih cat hndt qs c2 h
    · split at h
      · rename_i hx
        rw [hnd1] at hx
        cases hx
      · split at h
        · exact ih cat hndt qs c2 h
        · split at h
          · simp at h
          · exact ih cat hndt qs c2 h
          · rename_i q0 hq0
            split at h
            · simp at h
            · rename_i qs1 c1 hpr
              simp only [Except.ok.injEq, Prod.mk.injEq] at h
              obtain ⟨hqs, hc⟩ := h
              obtain ⟨ht1, ht2⟩ := ih cat hndt qs1 c1 hpr
              refine ⟨hc ▸ ht1, ?_⟩
              rw [← hqs]
              intro q hq
              rcases List.mem_cons.mp hq with rfl | hmem
              · exact parseQuestion_category _ _ _ hq0
              · exact ht2 q hmem

theorem parseBlocks_append : ∀ (bs cs : List (List Char)) (cat : List Char),
    parseBlocks (bs ++ cs) cat =
      match parseBlocks bs cat with
      | .error e => .error e
      | .ok (qs1, c1) =>
        match parseBlocks cs c1 with
        | .error e => .error e
        | .ok (qs2, c2) => .ok (qs1 ++ qs2, c2) := by
  intro bs
  induction bs with
  | nil =>
    intro cs cat
    rw [List.nil_append]
    have hr : (match parseBlocks ([] : List (List Char)) cat with
        | .error e => .error e
        | .ok (qs1, c1) =>
          match parseBlocks cs c1 with
          | .error e => .error e
          | .ok (qs2, c2) => .ok (qs1 ++ qs2, c2)) =
        (match parseBlocks cs cat with
          | .error e => (.error e : Except PError (List Question × List Char))
          | .ok (qs2, c2) => .ok (([] : List Question) ++ qs2, c2)) := rfl
    rw [hr]
    cases h : parseBlocks cs cat with
    | error e => rfl
    | ok pr => cases pr; simp
  | cons b t ih =>
    intro cs cat
    rw [List.cons_append]
    conv_lhs => rw [parseBlocks]
    conv_rhs => rw [parseBlocks]
    by_cases h1 : pyStrip b = []
    · simp only [if_pos h1]
      rw [ih]
    · simp only [if_neg h1]
      by_cases h2 : catMarker.isPrefixOf (pyStrip b) = true
      · simp only [if_pos h2]
        rw [ih]
      · simp only [if_neg h2]
        by_cases h3 : [ '$' ].isPrefixOf (pyStrip b) = true
        · simp only [if_pos h3]
          rw [ih]
        · simp only [if_neg h3]
          cases hq : parseQuestion (pyStrip b) cat with
          | error e => rfl
          | ok oq =>
            cases oq with
            | none => rw [ih]
            | some q0 =>
              rw [ih]
              cases h4 : parseBlocks t cat with
              | error e => rfl
              | ok pr =>
                cases pr with
                | mk qs1 c1 =>
                  dsimp only
                  cases h5 : parseBlocks cs c1 with
                  | error e => rfl
                  | ok pr2 => cases pr2; simp

/-! ### Claim theorems -/

/-- C1: the spec and the code's own comment promise that the single-line
payload `=Correct#100% ~Wrong#0%` yields two answers carrying
percentages 100 and 0.  The code instead treats `%` as a split marker
(`re.split(r'([=~%])')`), so the percent signs are consumed as
separators: the run produces three answers — "Correct" with feedback
"100" and no percentage, an empty answer, and "Wrong" with feedback "0"
— exhibiting the divergence at the failing input. -/
theorem c1_single_line_percent_run :
    parseGift (chars "Q \x7b=Correct#100% ~Wrong#0%\x7d") =
      .ok [⟨.multichoice, chars "Q",
        [.mc (chars "Correct") true none (some (chars "100")),
         .mc [] true none none,
         .mc (chars "Wrong") false none (some (chars "0"))],
        defaultCategory, none, none, none⟩] := by
  decide

/-- C2 counterexample: the payload `=Paris =London` starts with `=`, so
the classification chain routes it to multichoice before the shortanswer
default; the claimed type shortanswer is wrong. -/
theorem c2_paris_london_not_shortanswer :
    (parseGift (chars "Q \x7b=Paris =London\x7d")).map (List.map Question.qtype) =
      .ok [QType.multichoice] ∧ QType.multichoice ≠ QType.shortanswer := by
  decide

/-- C2 amended: `=Paris =London` parses as a multichoice question whose
answers are "Paris" and "London", both correct, with no percentage and
no feedback. -/
theorem c2_paris_london_multichoice :
    parseGift (chars "Q \x7b=Paris =London\x7d") =
      .ok [⟨.multichoice, chars "Q",
        [.mc (chars "Paris") true none none, .mc (chars "London") true none none],
        defaultCategory, none, none, none⟩] := by
  decide

/-- C3 counterexample: the membership test
`answers_block in ['T', 'F', 'TRUE', 'FALSE']` is case-sensitive, so the
lowercase payload `true` is not a truefalse question — it falls through
to the shortanswer default (with no answers). -/
theorem c3_lowercase_true_not_truefalse :
    parseGift (chars "Q \x7btrue\x7d") =
      .ok [⟨.shortanswer, chars "Q", [], defaultCategory, none, none, none⟩] ∧
    QType.shortanswer ≠ QType.truefalse := by
  decide

/-- C3 amended: for a block whose brace payload is exactly one of the
uppercase strings `T`, `F`, `TRUE`, `FALSE`, the parsed question has
type truefalse, an empty answer list, and `correct` true exactly when
the payload is `T` or `TRUE`. -/
theorem c3_uppercase_truefalse (b cat txt p : List Char)
    (hbr : hasSub [ '\x7b' ] (qBody b) = true)
    (hsp : braceSplit (qBody b) = some (txt, p))
    (hp : p = chars "T" ∨ p = chars "F" ∨ p = chars "TRUE" ∨ p = chars "FALSE") :
    parseQuestion b cat =
      .ok (some ⟨.truefalse, txt, [], cat,
        (titleSplit b).map (fun pr => pyStrip pr.1), none,
        some (tfTrueForms.contains (pyUpper p))⟩) ∧
    (tfTrueForms.contains (pyUpper p) = true ↔ (p = chars "T" ∨ p = chars "TRUE")) := by
  have hc : classifyPayload p =
      .ok ⟨.truefalse, [], some (tfTrueForms.contains (pyUpper p))⟩ := by
    rcases hp with h | h | h | h <;> subst h <;> decide
  constructor
  · simp [parseQuestion, hbr, hsp, hc]
  · rcases hp with h | h | h | h <;> subst h <;> decide

/-- C3 witness: the block `Q \x7bT\x7d` satisfies the hypotheses and is
a truefalse question with `correct = true`. -/
theorem c3_uppercase_truefalse_witness :
    parseQuestion (chars "Q \x7bT\x7d") defaultCategory =
      .ok (some ⟨.truefalse, chars "Q", [], defaultCategory,
        (titleSplit (chars "Q \x7bT\x7d")).map (fun pr => pyStrip pr.1), none,
        some (tfTrueForms.contains (pyUpper (chars "T")))⟩) ∧
    (tfTrueForms.contains (pyUpper (chars "T")) = true ↔
      (chars "T" = chars "T" ∨ chars "T" = chars "TRUE")) :=
  c3_uppercase_truefalse (chars "Q \x7bT\x7d") defaultCategory (chars "Q") (chars "T")
    (by decide) (by decide) (Or.inl rfl)

/-- C4 counterexample: the displayed text of the numerical answer for
payload `#100:5` is rendered from Python floats, `"100.0 ± 5.0"`, not
`"100 ± 5"` as claimed (value and tolerance themselves are 100 and 5). -/
theorem c4_display_uses_float_format :
    parseGift (chars "Q \x7b#100:5\x7d") =
      .ok [⟨.numerical, chars "Q", [.num 100 5 (chars "100.0 ± 5.0")],
        defaultCategory, none, none, none⟩] ∧
    chars "100.0 ± 5.0" ≠ chars "100 ± 5" := by
  decide

/-- C4 amended: `#100:5` yields one numerical answer with value 100,
tolerance 5 and display text `"100.0 ± 5.0"`; `#7` yields value 7,
tolerance 0 and display text `"7.0"` — the `± tolerance` suffix appears
exactly when the tolerance is positive, and values are rendered in
Python float notation. -/
theorem c4_numerical_values_and_display :
    parseGift (chars "Q \x7b#100:5\x7d") =
      .ok [⟨.numerical, chars "Q", [.num 100 5 (chars "100.0 ± 5.0")],
        defaultCategory, none, none, none⟩] ∧
    parseGift (chars "Q \x7b#7\x7d") =
      .ok [⟨.numerical, chars "Q", [.num 7 0 (chars "7.0")],
        defaultCategory, none, none, none⟩] := by
  decide

/-- C5: contrary to the claim that parsing never raises beyond decoding,
a numerical payload with a malformed numeric token raises: on the
document `Q \x7b#+\x7d` the classifier selects the numerical branch
(`#` followed by a `[\d.+-]` character) and `float('+')` raises
`ValueError`, aborting the whole parse. -/
theorem c5_malformed_numeric_raises :
    parseGift (chars "Q \x7b#+\x7d") = .error .valueError ∧
    parseGift (chars "Q \x7b#1:1.2.3\x7d") = .error .valueError := by
  decide

/-- C9: the classification chain tests matching (`->` present) before
multichoice, so a payload containing both `->` and a newline that is
neither truefalse nor numerical is classified as matching, never
multichoice. -/
theorem c9_matching_precedes_multichoice (p : List Char)
    (harrow : hasSub (chars "->") p = true)
    (hnl : hasSub [ '\n' ] p = true)
    (htf : tfForms.contains p = false)
    (hnum : matchesNumerical p = false) :
    classifyPayload p = .ok ⟨.matching, parseMatching p, none⟩ := by
  unfold classifyPayload
  rw [htf, hnum, harrow]
  simp

/-- C9 witness: the payload `=A -> 1\n=B -> 2` satisfies the hypotheses
and is classified as matching. -/
theorem c9_matching_precedes_multichoice_witness :
    classifyPayload (chars "=A -> 1\n=B -> 2") =
      .ok ⟨.matching, parseMatching (chars "=A -> 1\n=B -> 2"), none⟩ :=
  c9_matching_precedes_multichoice (chars "=A -> 1\n=B -> 2")
    (by decide) (by decide) (by decide) (by decide)

/-- C7 counterexample: the block `Q \x7bT\x7d[html]` contains `\x7b` and
does not end with `\x7d`, yet parsing it emits a (truefalse) Question:
the `[html]` marker is removed before the brace-shape test, so the claim
as stated over raw blocks is false. -/
theorem c7_html_suffix_cx :
    hasSub [ '\x7b' ] (chars "Q \x7bT\x7d[html]") = true ∧
    (chars "Q \x7bT\x7d[html]").getLast? ≠ some '\x7d' ∧
    parseGift (chars "Q \x7bT\x7d[html]") =
      .ok [⟨.truefalse, chars "Q", [], defaultCategory, none, none, some true⟩] := by
  decide

/-- C7 amended: for every block that is not a directive (no leading `$`)
and whose remainder after title extraction and `[html]` removal contains
`\x7b` but does not end with `\x7d`, the block loop emits no Question,
raises no error, leaves the category unchanged, and continues exactly as
if the block were absent. -/
theorem c7_unclosed_brace_skipped (b : List Char) (rest : List (List Char)) (cat : List Char)
    (hdollar : (pyStrip b).head? ≠ some '$')
    (hbrace : hasSub [ '\x7b' ] (qBody (pyStrip b)) = true)
    (hclose : (qBody (pyStrip b)).getLast? ≠ some '\x7d') :
    parseBlocks (b :: rest) cat = parseBlocks rest cat := by
  have hcm : catMarker = '$' :: chars "CATEGORY:" := rfl
  by_cases hemp : pyStrip b = []
  · conv_lhs => rw [parseBlocks]
    rw [if_pos hemp]
  · have hcat : catMarker.isPrefixOf (pyStrip b) = false := by
      cases hx : catMarker.isPrefixOf (pyStrip b) with
      | false => rfl
      | true =>
        rw [hcm] at hx
        exact absurd (isPrefixOf_cons_head _ _ _ hx) hdollar
    have hdol : ([ '$' ] : List Char).isPrefixOf (pyStrip b) = false := by
      cases hx : ([ '$' ] : List Char).isPrefixOf (pyStrip b) with
      | false => rfl
      | true => exact absurd (isPrefixOf_cons_head _ _ _ hx) hdollar
    have hlast : (qBody (pyStrip b)).getLast? ≠ some '\n' := by
      intro hl
      obtain ⟨y, hy⟩ := qBody_is_stripped b
      rw [hy] at hl
      have := pyStrip_getLast_not_space y '\n' hl
      simp [pyIsSpace] at this
    have hcore : braceCore (qBody (pyStrip b)) = qBody (pyStrip b) := by
      unfold braceCore
      rw [if_neg hlast]
    have hbs : braceSplit (qBody (pyStrip b)) = none := by
      unfold braceSplit
      rw [hcore]
      rw [if_neg]
      intro hx
      exact hclose hx.1
    have hq : parseQuestion (pyStrip b) cat = .ok none := by
      unfold parseQuestion
      rw [if_pos hbrace, hbs]
    conv_lhs => rw [parseBlocks]
    rw [if_neg hemp, hcat, hdol, hq]
    simp

/-- C7 witness: the single malformed block `Q \x7bT` followed by a
well-formed block parses exactly as the well-formed block alone. -/
theorem c7_unclosed_brace_skipped_witness :
    parseBlocks [chars "Q \x7bT", chars "R \x7bF\x7d"] defaultCategory =
      parseBlocks [chars "R \x7bF\x7d"] defaultCategory :=
  c7_unclosed_brace_skipped (chars "Q \x7bT") [chars "R \x7bF\x7d"] defaultCategory
    (by decide) (by decide) (by decide)

/-- C8 counterexample: for the directive block
`$CATEGORY:A$CATEGORY:B`, `str.replace` deletes every occurrence of the
prefix, so the category becomes `AB` — not the trimmed remainder after
the leading prefix, which would be `A$CATEGORY:B`. -/
theorem c8_replace_all_occurrences_cx :
    parseGift (chars "$CATEGORY:A$CATEGORY:B\n\nQ \x7bT\x7d") =
      .ok [⟨.truefalse, chars "Q", [], chars "AB", none, none, some true⟩] ∧
    chars "AB" ≠ chars "A$CATEGORY:B" := by
  decide

/-- C8 amended: a category-directive block sets the current category to
the block with every occurrence of `$CATEGORY:` deleted, trimmed (equal
to the trimmed remainder after the prefix when the prefix occurs once),
produces no Question, and every question from the following
directive-free blocks is stamped with the new category, while the
questions of the preceding directive-free blocks keep the category they
were emitted under. -/
theorem c8_category_directive (bs cs : List (List Char)) (cat d : List Char)
    (hd : catMarker.isPrefixOf (pyStrip d) = true)
    (hbs : ∀ b ∈ bs, catMarker.isPrefixOf (pyStrip b) = false)
    (hcs : ∀ b ∈ cs, catMarker.isPrefixOf (pyStrip b) = false) :
    (parseBlocks (bs ++ d :: cs) cat =
      match parseBlocks bs cat with
      | .error e => .error e
      | .ok (qs1, _) =>
        match parseBlocks cs (pyStrip (replaceAll catMarker [] (pyStrip d))) with
        | .error e => .error e
        | .ok (qs2, c2) => .ok (qs1 ++ qs2, c2)) ∧
    (∀ qs2 c2,
      parseBlocks cs (pyStrip (replaceAll catMarker [] (pyStrip d))) = .ok (qs2, c2) →
      ∀ q ∈ qs2, q.category = pyStrip (replaceAll catMarker [] (pyStrip d))) ∧
    (∀ qs1 c1, parseBlocks bs cat = .ok (qs1, c1) →
      c1 = cat ∧ ∀ q ∈ qs1, q.category = cat) := by
  have hdne : pyStrip d ≠ [] := by
    intro hx
    rw [hx] at hd
    exact absurd hd (by decide)
  have hstep : ∀ c1, parseBlocks (d :: cs) c1 =
      parseBlocks cs (pyStrip (replaceAll catMarker [] (pyStrip d))) := by
    intro c1
    conv_lhs => rw [parseBlocks]
    rw [if_neg hdne, if_pos hd]
  refine ⟨?_, ?_, ?_⟩
  · rw [parseBlocks_append]
    cases hb : parseBlocks bs cat with
    | error e => rfl
    | ok pr =>
      cases pr with
      | mk qs1 c1 =>
        dsimp only
        rw [hstep c1]
  · intro qs2 c2 h
    exact (parseBlocks_noCat cs _ hcs qs2 c2 h).2
  · intro qs1 c1 h
    exact parseBlocks_noCat bs cat hbs qs1 c1 h

/-- C8 witness: a directive `$CATEGORY: Math` between two question
blocks splits the run at the new category, the question before keeping
the default category and the question after carrying `Math`. -/
theorem c8_category_directive_witness :
    (parseBlocks [chars "A \x7bT\x7d", chars "$CATEGORY: Math", chars "B \x7bF\x7d"]
        defaultCategory =
      match parseBlocks [chars "A \x7bT\x7d"] defaultCategory with
      | .error e => .error e
      | .ok (qs1, _) =>
        match parseBlocks [chars "B \x7bF\x7d"]
            (pyStrip (replaceAll catMarker [] (pyStrip (chars "$CATEGORY: Math")))) with
        | .error e => .error e
        | .ok (qs2, c2) => .ok (qs1 ++ qs2, c2)) ∧
    (∀ qs2 c2,
      parseBlocks [chars "B \x7bF\x7d"]
          (pyStrip (replaceAll catMarker [] (pyStrip (chars "$CATEGORY: Math")))) =
        .ok (qs2, c2) →
      ∀ q ∈ qs2, q.category =
        pyStrip (replaceAll catMarker [] (pyStrip (chars "$CATEGORY: Math")))) ∧
    (∀ qs1 c1, parseBlocks [chars "A \x7bT\x7d"] defaultCategory = .ok (qs1, c1) →
      c1 = defaultCategory ∧ ∀ q ∈ qs1, q.category = defaultCategory) :=
  c8_category_directive [chars "A \x7bT\x7d"] [chars "B \x7bF\x7d"] defaultCategory
    (chars "$CATEGORY: Math") (by decide) (by decide) (by decide)

/-- C10: every question in a successful parse has one of the six
assigned types — the `unknown` tag the record is initialized with never
reaches the output. -/
theorem c10_no_unknown_type (content : List Char) (qs : List Question)
    (h : parseGift content = .ok qs) :
    ∀ q ∈ qs, q.qtype ≠ .unknown ∧
      (q.qtype = .description ∨ q.qtype = .truefalse ∨ q.qtype = .numerical ∨
       q.qtype = .matching ∨ q.qtype = .multichoice ∨ q.qtype = .shortanswer) := by
  intro q hq
  unfold parseGift at h
  split at h
  · simp at h
  · rename_i qs0 c0 hpb
    simp only [Except.ok.injEq] at h
    rw [← h] at hq
    have ht := parseBlocks_qtype _ _ _ _ hpb q hq
    refine ⟨?_, ht⟩
    rcases ht with h | h | h | h | h | h <;> rw [h] <;> decide

/-- C10 witness: the single question parsed from `Q \x7bT\x7d` has an
assigned (non-unknown) type. -/
theorem c10_no_unknown_type_witness :
    (⟨.truefalse, chars "Q", [], defaultCategory, none, none, some true⟩ : Question).qtype ≠
        .unknown ∧
      ((⟨.truefalse, chars "Q", [], defaultCategory, none, none, some true⟩ : Question).qtype =
          .description ∨
        (⟨.truefalse, chars "Q", [], defaultCategory, none, none, some true⟩ : Question).qtype =
          .truefalse ∨
        (⟨.truefalse, chars "Q", [], defaultCategory, none, none, some true⟩ : Question).qtype =
          .numerical ∨
        (⟨.truefalse, chars "Q", [], defaultCategory, none, none, some true⟩ : Question).qtype =
          .matching ∨
        (⟨.truefalse, chars "Q", [], defaultCategory, none, none, some true⟩ : Question).qtype =
          .multichoice ∨
        (⟨.truefalse, chars "Q", [], defaultCategory, none, none, some true⟩ : Question).qtype =
          .shortanswer) :=
  c10_no_unknown_type (chars "Q \x7bT\x7d")
    [⟨.truefalse, chars "Q", [], defaultCategory, none, none, some true⟩] (by decide)
    ⟨.truefalse, chars "Q", [], defaultCategory, none, none, some true⟩
    (List.mem_singleton_self _)

theorem decodeFirst_first_success :
    ∀ (cs : List (String × (List Nat → Option (List Nat)))) (bs t : List Nat),
    decodeFirst cs bs = some t →
    ∃ i, ∃ h : i < cs.length, (cs.get ⟨i, h⟩).2 bs = some t ∧
      ∀ j, ∀ hj : j < i, (cs.get ⟨j, Nat.lt_trans hj h⟩).2 bs = none := by
  intro cs
  induction cs with
  | nil => intro bs t h; simp [decodeFirst] at h
  | cons c ct ih =>
    intro bs t h
    unfold decodeFirst at h
    cases hc : c.2 bs with
    | some t0 =>
      rw [hc] at h
      simp only [Option.some.injEq] at h
      subst h
      exact ⟨0, by simp, hc, fun j hj => absurd hj (Nat.not_lt_zero j)⟩
    | none =>
      rw [hc] at h
      obtain ⟨i, hlt, h1, h2⟩ := ih bs t h
      refine ⟨i + 1, Nat.succ_lt_succ hlt, h1, ?_⟩
      intro j hj
      cases j with
      | zero => exact hc
      | succ k => exact h2 k (Nat.lt_of_succ_lt_succ hj)

theorem decodeFirst_codecs_some (bs : List Nat) : ∃ t, decodeFirst codecs bs = some t := by
  cases h1 : utf8Decode bs with
  | some t => exact ⟨t, by simp [codecs, decodeFirst, h1]⟩
  | none =>
    cases h2 : utf8sigDecode bs with
    | some t => exact ⟨t, by simp [codecs, decodeFirst, h1, h2]⟩
    | none =>
      cases h3 : cp1251Decode bs with
      | some t => exact ⟨t, by simp [codecs, decodeFirst, h1, h2, h3]⟩
      | none => exact ⟨bs, by simp [codecs, decodeFirst, h1, h2, h3, latin1Decode]⟩

/-- C6: the decoding loop raises its fatal error exactly when every
candidate encoding rejects the bytes (which never happens, since the
final candidate latin-1 accepts everything); a raised error carries the
attempted-encodings list, and otherwise the decoded text is the one
produced by the first accepting candidate in order. -/
theorem c6_decode_error_iff (bs : List Nat) :
    ((∃ names, parseGiftBytes bs = .error (.decodeError names)) ↔
      ∀ c ∈ codecs, c.2 bs = none) ∧
    (∀ names, parseGiftBytes bs = .error (.decodeError names) →
      names = codecs.map Prod.fst) ∧
    (∀ t, decodeBytes bs = .ok t → ∃ i, ∃ h : i < codecs.length,
      (codecs.get ⟨i, h⟩).2 bs = some t ∧
      ∀ j, ∀ hj : j < i, (codecs.get ⟨j, Nat.lt_trans hj h⟩).2 bs = none) := by
  obtain ⟨t0, ht0⟩ := decodeFirst_codecs_some bs
  have hdb : decodeBytes bs = .ok t0 := by
    unfold decodeBytes
    rw [ht0]
  have hnoerr : ∀ names, parseGiftBytes bs ≠ .error (.decodeError names) := by
    intro names hx
    unfold parseGiftBytes at hx
    rw [hdb] at hx
    dsimp only at hx
    cases hpg : parseGift (t0.map Char.ofNat) with
    | error e => rw [hpg] at hx; simp at hx
    | ok qs => rw [hpg] at hx; simp at hx
  refine ⟨?_, ?_, ?_⟩
  · constructor
    · rintro ⟨names, hx⟩
      exact absurd hx (hnoerr names)
    · intro hall
      have := hall ("latin-1", latin1Decode) (by simp [codecs])
      simp [latin1Decode] at this
  · intro names hx
    exact absurd hx (hnoerr names)
  · intro t ht
    have hdf : decodeFirst codecs bs = some t := by
      unfold decodeBytes at ht
      rw [ht0] at ht
      simp only [Except.ok.injEq] at ht
      rw [← ht]
      exact ht0
    exact decodeFirst_first_success codecs bs t hdf

/-- C6 witness: on the two-byte UTF-8 input `[208, 150]` the error is
raised iff every codec rejects (it is not — UTF-8 itself accepts). -/
theorem c6_decode_error_iff_witness :
    ((∃ names, parseGiftBytes [208, 150] = .error (.decodeError names)) ↔
      ∀ c ∈ codecs, c.2 [208, 150] = none) :=
  (c6_decode_error_iff [208, 150]).1

end Gift
